import Mathlib

/-!
# Verification of the `parse-hyperlinks` parsing core

Shallow embedding of `src/parser/html.rs` and `src/parser/restructured_text.rs`.
Strings are modelled as `List Char`; the nom parser combinators used by the
source are modelled as total functions returning `Except PErr (rest × output)`,
where `PErr` carries the remaining input at the failure position together with
the nom `ErrorKind` tag, exactly as `nom::error::Error` does.
-/

/-- Characters of a string, the working representation of Rust `&str`. -/
def s2l (s : String) : List Char := s.data

/-- Model of `nom::error::ErrorKind` (only the kinds this code can produce),
plus `Fuel`, an unreachable marker used by fuel-bounded loops. -/
inductive ErrKind where
  | Tag | Eof | Verify | AlphaNumeric | MultiSpace | IsNot | TakeUntil
  | OneOf | NoneOf | Chr | Escaped | EscapedTransform | CrLf | SeparatedList
  | Fuel
  deriving DecidableEq, Repr

/-- Model of `nom::error::Error<&str>`: the input slice at the failure point
and the error kind. -/
abbrev PErr := List Char × ErrKind

/-- Model of `std::borrow::Cow<str>`: the variant is significant (zero-copy
contract), content equality is not enough. -/
inductive Cow where
  | borrowed : List Char → Cow
  | owned : List Char → Cow
  deriving DecidableEq, Repr

/-- The string content of a `Cow` (`Deref<Target = str>`). -/
def Cow.val : Cow → List Char
  | .borrowed s => s
  | .owned s => s

/-- Whether a `Cow` is the `Borrowed` variant. -/
def Cow.isBorrowed : Cow → Bool
  | .borrowed _ => true
  | .owned _ => false

theorem Cow.val_borrowed (s : List Char) : (Cow.borrowed s).val = s := rfl

theorem Cow.val_owned (s : List Char) : (Cow.owned s).val = s := rfl

/-- `true` on an `Except.error`. -/
def isErr {ε α : Type} : Except ε α → Bool
  | .error _ => true
  | .ok _ => false

instance {ε α : Type} [DecidableEq ε] [DecidableEq α] : DecidableEq (Except ε α) := fun a b =>
  match a, b with
  | .error e, .error e' =>
    if h : e = e' then .isTrue (by rw [h]) else .isFalse (by simp [h])
  | .ok x, .ok y =>
    if h : x = y then .isTrue (by rw [h]) else .isFalse (by simp [h])
  | .error _, .ok _ => .isFalse (by simp)
  | .ok _, .error _ => .isFalse (by simp)

/-- nom's whitespace set for `multispace0`/`multispace1` (`" \t\r\n"`). -/
def isNomWs (c : Char) : Bool := c = ' ' || c = '\t' || c = '\r' || c = '\n'

/-- nom's `space0` set (`" \t"`). -/
def isNomSp (c : Char) : Bool := c = ' ' || c = '\t'

/-- `nom::bytes::complete::tag(t)`: `t` must be a literal prefix of the input. -/
def tagP (t : List Char) (i : List Char) : Except PErr (List Char) :=
  if t.isPrefixOf i then .ok (i.drop t.length) else .error (i, .Tag)

/-- `nom::character::complete::char(c)`. -/
def charP (c : Char) (i : List Char) : Except PErr (List Char) :=
  match i with
  | d :: rest => if d = c then .ok rest else .error (i, .Chr)
  | [] => .error (i, .Chr)

/-- `nom::combinator::eof`: succeeds only on empty input. -/
def eofP (i : List Char) : Except PErr (List Char) :=
  if i = [] then .ok [] else .error (i, .Eof)

/-- `nom::character::complete::anychar`: consumes one character. -/
def anycharP (i : List Char) : Except PErr (List Char × Char) :=
  match i with
  | c :: rest => .ok (rest, c)
  | [] => .error (i, .Eof)

/-- `nom::bytes::complete::is_not(set)`: longest non-empty prefix of
characters outside `set`. -/
def isNotP (set : List Char) (i : List Char) : Except PErr (List Char × List Char) :=
  let m := i.takeWhile (fun c => !set.contains c)
  if m = [] then .error (i, .IsNot) else .ok (i.drop m.length, m)

/-- `nom::bytes::complete::take_until(t)`: everything before the first
occurrence of `t`; fails if `t` never occurs. -/
def takeUntilP (t : List Char) : List Char → Except PErr (List Char × List Char)
  | [] => if t.isPrefixOf ([] : List Char) then .ok ([], []) else .error ([], .TakeUntil)
  | c :: rest =>
    if t.isPrefixOf (c :: rest) then .ok (c :: rest, [])
    else
      match takeUntilP t rest with
      | .ok (r, m) => .ok (r, c :: m)
      | .error _ => .error (c :: rest, .TakeUntil)

/-- `nom::character::complete::alphanumeric1` (ASCII, as in nom's `is_alphanum`). -/
def alphanumeric1P (i : List Char) : Except PErr (List Char × List Char) :=
  let m := i.takeWhile Char.isAlphanum
  if m = [] then .error (i, .AlphaNumeric) else .ok (i.drop m.length, m)

/-- `nom::character::complete::multispace1`. -/
def multispace1P (i : List Char) : Except PErr (List Char × List Char) :=
  let m := i.takeWhile isNomWs
  if m = [] then .error (i, .MultiSpace) else .ok (i.drop m.length, m)

/-- `nom::character::complete::multispace0` (cannot fail). -/
def multispace0P (i : List Char) : List Char × List Char :=
  (i.dropWhile isNomWs, i.takeWhile isNomWs)

/-- `nom::character::complete::space0` (cannot fail). -/
def space0P (i : List Char) : List Char × List Char :=
  (i.dropWhile isNomSp, i.takeWhile isNomSp)

/-- `nom::character::complete::line_ending`: `"\n"` or `"\r\n"`. -/
def lineEndingP (i : List Char) : Except PErr (List Char) :=
  match i with
  | '\n' :: rest => .ok rest
  | '\r' :: '\n' :: rest => .ok rest
  | _ => .error (i, .CrLf)

/-- `nom::character::complete::not_line_ending`: text before the first `\r`
or `\n`; a `\r` not followed by `\n` is an error. -/
def notLineEndingP (i : List Char) : Except PErr (List Char × List Char) :=
  let m := i.takeWhile (fun c => !(c = '\r' || c = '\n'))
  let r := i.drop m.length
  match r with
  | '\r' :: rest =>
    match rest with
    | '\n' :: _ => .ok (r, m)
    | _ => .error (i, .Tag)
  | _ => .ok (r, m)

/-- Rust `str::trim` (ASCII whitespace, sufficient for this grammar). -/
def trimL (i : List Char) : List Char :=
  ((i.dropWhile isNomWs).reverse.dropWhile isNomWs).reverse

/-- Rust `str::trim_end`. -/
def trimEndL (i : List Char) : List Char :=
  (i.reverse.dropWhile isNomWs).reverse

/-- `nom::bytes::complete::escaped(none_of ..., '\\', one_of ...)`:
`nm` accepts a normal character, `es` accepts an escapable character.
Returns `(rest, matched span)`. `orig` is the original input of the call,
reported on a dangling control character (`ErrorKind::Escaped`); a failing
escapable character propagates the inner `one_of` error. The empty span is a
legal match (nom 6 behaviour). -/
def escapedAux (nm es : Char → Bool) (orig : List Char) :
    List Char → Except PErr (List Char × List Char)
  | [] => .ok ([], [])
  | c :: cs =>
    if nm c then
      (escapedAux nm es orig cs).map (fun p => (p.1, c :: p.2))
    else if c = '\\' then
      match cs with
      | [] => .error (orig, .Escaped)
      | d :: ds =>
        if es d then
          (escapedAux nm es orig ds).map (fun p => (p.1, c :: d :: p.2))
        else .error (d :: ds, .OneOf)
    else .ok (c :: cs, [])

/-- Wrapper fixing `orig` to the call's input. -/
def escapedP (nm es : Char → Bool) (i : List Char) :
    Except PErr (List Char × List Char) :=
  escapedAux nm es i i

/-- `nom::bytes::complete::escaped_transform(is_not "\\", '\\', alt(...))`,
specialised to this code: `emap` gives the replacement for each escapable
character (the `alt` of `value(..., tag(...))` branches); an unrecognized
escape fails with the last branch's `Tag` error. Returns `(rest, output)`;
with `is_not "\\"` as the normal parser the whole input is always consumed
on success. -/
def escTransAux (emap : Char → Option (List Char)) (orig : List Char) :
    List Char → Except PErr (List Char × List Char)
  | [] => .ok ([], [])
  | c :: cs =>
    if c = '\\' then
      match cs with
      | [] => .error (orig, .EscapedTransform)
      | d :: ds =>
        match emap d with
        | some rep => (escTransAux emap orig ds).map (fun p => (p.1, rep ++ p.2))
        | none => .error (d :: ds, .Tag)
    else (escTransAux emap orig cs).map (fun p => (p.1, c :: p.2))

/-- `nom::multi::separated_list1(sep, elem)` with nom's semantics: the first
element must parse; afterwards a failing separator or element ends the list
with the input rewound to before the separator. `fuel` only bounds the loop
(`.Fuel` is unreachable for the separators used here, which always consume). -/
def sepList1Aux {α β : Type}
    (sep : List Char → Except PErr (List Char × β))
    (elem : List Char → Except PErr (List Char × α)) :
    Nat → List Char → List α → Except PErr (List Char × List α)
  | 0, i, _ => .error (i, .Fuel)
  | fuel + 1, i, acc =>
    match sep i with
    | .error _ => .ok (i, acc.reverse)
    | .ok (i1, _) =>
      if i1.length = i.length then .error (i1, .SeparatedList)
      else
        match elem i1 with
        | .error _ => .ok (i, acc.reverse)
        | .ok (i2, o) => sepList1Aux sep elem fuel i2 (o :: acc)

/-- `nom::multi::separated_list1`. -/
def sepList1P {α β : Type}
    (sep : List Char → Except PErr (List Char × β))
    (elem : List Char → Except PErr (List Char × α))
    (i : List Char) : Except PErr (List Char × List α) :=
  match elem i with
  | .error e => .error e
  | .ok (i1, o) => sepList1Aux sep elem (i1.length + 1) i1 [o]

/-! ## HTML dialect (`src/parser/html.rs`) -/

/-- The `verify` predicate of `attribute`: the token's first character must be
alphabetic (the token is never empty, `alphanumeric1` guarantees that). -/
def firstAlphaB (m : List Char) : Bool :=
  match m with
  | c :: _ => c.isAlpha
  | [] => false

/-- `verify(alphanumeric1, |s| s.chars().next().unwrap().is_alphabetic())`. -/
def verifyAlnumAlpha (i : List Char) : Except PErr (List Char × List Char) :=
  match alphanumeric1P i with
  | .error e => .error e
  | .ok (r, m) => if firstAlphaB m then .ok (r, m) else .error (i, .Verify)

/-- `attribute` (html.rs:41–57): a `name="value"` pair, or a bare identifier
(boolean attribute) yielding `("", "")`. `alt` reports the last branch's
error when both fail. -/
def attributeP (i : List Char) : Except PErr (List Char × (List Char × List Char)) :=
  let b1 : Except PErr (List Char × (List Char × List Char)) :=
    match verifyAlnumAlpha i with
    | .error e => .error e
    | .ok (r, name) =>
      match tagP (s2l "=\"") r with
      | .error e => .error e
      | .ok r1 =>
        match isNotP (s2l "\"") r1 with
        | .error e => .error e
        | .ok (r2, v) =>
          match tagP (s2l "\"") r2 with
          | .error e => .error e
          | .ok r3 => .ok (r3, (name, v))
  match b1 with
  | .ok res => .ok res
  | .error _ =>
    match verifyAlnumAlpha i with
    | .error e => .error e
    | .ok (r, _) => .ok (r, ([], []))

/-- `attribute_list` (html.rs:60–63): trim, then a whitespace-separated
non-empty list of attributes. -/
def attribute_list (i : List Char) :
    Except PErr (List Char × List (List Char × List Char)) :=
  sepList1P multispace1P attributeP (trimL i)

/-- The scanning loop of `parse_attributes` (html.rs:73–86): collect `href`
and `title`, rejecting a second occurrence of either via `eof(slot)?`
(which fails with `ErrorKind::Eof` at the already-stored value). -/
def collect_attrs : List (List Char × List Char) → List Char → List Char →
    Except PErr (List Char × List Char)
  | [], href, title => .ok (href, title)
  | (n, v) :: rest, href, title =>
    if n = s2l "href" then
      if href = [] then collect_attrs rest v title else .error (href, .Eof)
    else if n = s2l "title" then
      if title = [] then collect_attrs rest href v else .error (title, .Eof)
    else collect_attrs rest href title

/-- `parse_attributes` (html.rs:68–92): attribute list, the collect loop,
then `anychar(href)?` assuring `href` is non-empty. -/
def parse_attributes (i : List Char) :
    Except PErr (List Char × (List Char × List Char)) :=
  match attribute_list i with
  | .error e => .error e
  | .ok (i1, attrs) =>
    match collect_attrs attrs [] [] with
    | .error e => .error e
    | .ok (href, title) =>
      match anycharP href with
      | .error e => .error e
      | .ok _ => .ok (i1, (href, title))

/-- `tag_a_opening` (html.rs:31–37): `delimited(tag("<a "),
map_parser(is_not(">"), parse_attributes), tag(">"))`; `map_parser` discards
whatever `parse_attributes` leaves unconsumed. -/
def tag_a_opening (i : List Char) :
    Except PErr (List Char × (List Char × List Char)) :=
  match tagP (s2l "<a ") i with
  | .error e => .error e
  | .ok i1 =>
    match isNotP (s2l ">") i1 with
    | .error e => .error e
    | .ok (i2, inner) =>
      match parse_attributes inner with
      | .error e => .error e
      | .ok (_, ht) =>
        match tagP (s2l ">") i2 with
        | .error e => .error e
        | .ok i3 => .ok (i3, ht)

/-- `html_link` (html.rs:21–27): opening tag, inner text up to `</a>`,
closing tag; returns `(name, destination, title)`. -/
def html_link (i : List Char) :
    Except PErr (List Char × (List Char × List Char × List Char)) :=
  match tag_a_opening i with
  | .error e => .error e
  | .ok (i1, (dest, title)) =>
    match takeUntilP (s2l "</a>") i1 with
    | .error e => .error e
    | .ok (i2, name) =>
      match tagP (s2l "</a>") i2 with
      | .error e => .error e
      | .ok i3 => .ok (i3, (name, dest, title))

example : html_link (s2l "<a href=\"destination\" title=\"title\">name</a>abc") =
    .ok (s2l "abc", (s2l "name", s2l "destination", s2l "title")) := by decide
example : html_link (s2l "<a title=\"W3S\" href=\"https://www.w3schools.com/\">W3Schools</a>abc") =
    .ok (s2l "abc", (s2l "W3Schools", s2l "https://www.w3schools.com/", s2l "W3S")) := by decide
example : parse_attributes (s2l "abc href=\"http://getreu.net\" abc title=\"My blog\" abc") =
    .ok ([], (s2l "http://getreu.net", s2l "My blog")) := by decide
example : parse_attributes (s2l " href=\"http://getreu.net\" href=\"http://blog.getreu.net\" ") =
    .error (s2l "http://getreu.net", .Eof) := by decide
example : parse_attributes (s2l " href=\"http://getreu.net\" title=\"a\" title=\"b\" ") =
    .error (s2l "a", .Eof) := by decide
example : parse_attributes (s2l " title=\"title\" ") = .error ([], .Eof) := by decide
example : attributeP (s2l "1name") = .error (s2l "1name", .Verify) := by decide
example : attributeP (s2l "bool abc") = .ok (s2l " abc", ([], [])) := by decide
example : attribute_list (s2l "abc href=\"http://getreu.net\" abc title=\"My blog\" abc") =
    .ok ([], [([], []), (s2l "href", s2l "http://getreu.net"), ([], []),
      (s2l "title", s2l "My blog"), ([], [])]) := by decide

example : tagP (s2l "ab") (s2l "abc") = .ok (s2l "c") := by decide
example : isNotP (s2l ">") (s2l "a>b") = .ok (s2l ">b", s2l "a") := by decide
example : takeUntilP (s2l "</a>") (s2l "n</a>x") = .ok (s2l "</a>x", s2l "n") := by decide
example : escapedP (fun c => !(c = '\\' || c = '`')) (fun c => (s2l " `:<>\\").contains c)
    (s2l "a\\`b`c") = .ok (s2l "`c", s2l "a\\`b") := by decide

/-! ## reStructuredText dialect (`src/parser/restructured_text.rs`) -/

/-- `one_of(set)` as a character predicate. -/
def oneOfB (set : List Char) (c : Char) : Bool := set.contains c

/-- `none_of(set)` as a character predicate. -/
def noneOfB (set : List Char) (c : Char) : Bool := !set.contains c

/-- Escape replacements of `rst_escaped_link_name_transform`
(restructured_text.rs:243–250): `\ ` is deleted. -/
def nameEmap (c : Char) : Option (List Char) :=
  if c = '\\' then some (s2l "\\")
  else if c = '`' then some (s2l "`")
  else if c = ':' then some (s2l ":")
  else if c = '<' then some (s2l "<")
  else if c = '>' then some (s2l ">")
  else if c = ' ' then some []
  else none

/-- Escape replacements of `rst_escaped_link_destination_transform`
(restructured_text.rs:303–310): `\ ` becomes one space. -/
def destEmap (c : Char) : Option (List Char) :=
  if c = '\\' then some (s2l "\\")
  else if c = '`' then some (s2l "`")
  else if c = ':' then some (s2l ":")
  else if c = '<' then some (s2l "<")
  else if c = '>' then some (s2l ">")
  else if c = ' ' then some (s2l " ")
  else none

/-- `rst_escaped_link_name_transform` (restructured_text.rs:238–254):
escape substitution, then `Borrowed` when nothing changed, `Owned` otherwise. -/
def rst_escaped_link_name_transform (i : List Char) : Except PErr (List Char × Cow) :=
  match escTransAux nameEmap i i with
  | .error e => .error e
  | .ok (r, s) => .ok (r, if s = i then Cow.borrowed i else Cow.owned s)

/-- One pass of the `remove_whitespace` loop body, iterated on fuel
(restructured_text.rs:258–280): skip whitespace, take an escaped chunk,
append it to the accumulator with the source's `Cow` bookkeeping. -/
def rwLoop : Nat → List Char → Cow → Except PErr (List Char × Cow)
  | 0, j, _ => .error (j, .Fuel)
  | fuel + 1, j, res =>
    if j = [] then .ok (j, res)
    else
      let k := (multispace0P j).1
      match escapedP (noneOfB (s2l "\\\r\n \t")) (oneOfB (s2l " :`<>\\")) k with
      | .error e => .error e
      | .ok (k2, s) =>
        let res' := match res with
          | .borrowed [] => Cow.borrowed s
          | .borrowed r => Cow.owned (r ++ s)
          | .owned r => Cow.owned (r ++ s)
        rwLoop fuel k2 res'

/-- `remove_whitespace` (restructured_text.rs:257–283): deletes all literal
whitespace, keeping escape pairs (`\ ` included) verbatim. -/
def remove_whitespace (i : List Char) : Except PErr (List Char × Cow) :=
  rwLoop (i.length + 1) i (Cow.borrowed [])

/-- `rst_escaped_link_destination_transform` (restructured_text.rs:289–320):
`remove_whitespace`, then escape substitution (errors there are re-reported
as `EscapedTransform` at the whole input by `my_err`), then `Borrowed` iff
the result equals the input. -/
def rst_escaped_link_destination_transform (i : List Char) :
    Except PErr (List Char × Cow) :=
  match remove_whitespace i with
  | .error e => .error e
  | .ok (j, c) =>
    match escTransAux destEmap (Cow.val c) (Cow.val c) with
    | .error _ => .error (i, .EscapedTransform)
    | .ok (_, s) => .ok (j, if s = i then Cow.borrowed i else Cow.owned s)

/-- The second half of `rst_parse_link` (restructured_text.rs:116–135,
"From here on, we only deal with the inner result of the above"): split the
captured span into the trailing-whitespace-trimmed name and the
`<`-bracketed destination; trailing content after `>` is an error. -/
def rst_link_inner (j : List Char) : Except PErr (List Char × List Char) :=
  match escapedP (noneOfB (s2l "\\<")) (oneOfB (s2l " `:<>")) j with
  | .error e => .error e
  | .ok (j1, ln0) =>
    let ln := trimEndL ln0
    match tagP (s2l "<") j1 with
    | .error e => .error e
    | .ok j2 =>
      match escapedP (noneOfB (s2l "\\<>")) (oneOfB (s2l " `:<>")) j2 with
      | .error e => .error e
      | .ok (j3, ld) =>
        match tagP (s2l ">") j3 with
        | .error e => .error e
        | .ok j4 =>
          match eofP j4 with
          | .error e => .error e
          | .ok _ => .ok (ln, ld)

/-- `rst_parse_link` (restructured_text.rs:103–138): the backtick-delimited
span ended by `` `_ `` (an optional second `_` is consumed, which cannot
fail), then the span is split by `rst_link_inner`. -/
def rst_parse_link (i : List Char) :
    Except PErr (List Char × (List Char × List Char)) :=
  match tagP (s2l "`") i with
  | .error e => .error e
  | .ok i1 =>
    match escapedP (noneOfB (s2l "\\`")) (oneOfB (s2l " `:<>\\")) i1 with
    | .error e => .error e
    | .ok (i2, j) =>
      match tagP (s2l "`_") i2 with
      | .error e => .error e
      | .ok i3 =>
        let i4 := match tagP (s2l "_") i3 with
          | .ok r => r
          | .error _ => i3
        match rst_link_inner j with
        | .error e => .error e
        | .ok (ln, ld) => .ok (i4, (ln, ld))

/-- `rst_link` (restructured_text.rs:33–39): `rst_parse_link` plus the two
escape transforms; the title is always `Borrowed("")`. -/
def rst_link (i : List Char) : Except PErr (List Char × (Cow × Cow × Cow)) :=
  match rst_parse_link i with
  | .error e => .error e
  | .ok (i1, (ln0, ld0)) =>
    match rst_escaped_link_name_transform ln0 with
    | .error e => .error e
    | .ok (_, ln) =>
      match rst_escaped_link_destination_transform ld0 with
      | .error e => .error e
      | .ok (_, ld) => .ok (i1, (ln, ld, Cow.borrowed []))

/-- `rst_parse_link_ref` (restructured_text.rs:148–171): `_`, then either a
backtick-quoted label ended by `` `: `` or an unquoted label ended by `: `;
the rest of the line is the raw destination. -/
def rst_parse_link_ref (i : List Char) :
    Except PErr (List Char × (List Char × List Char)) :=
  match charP '_' i with
  | .error e => .error e
  | .ok i1 =>
    let b1 : Except PErr (List Char × List Char) :=
      match tagP (s2l "`") i1 with
      | .error e => .error e
      | .ok r =>
        match escapedP (noneOfB (s2l "\\`")) (oneOfB (s2l " `:<>")) r with
        | .error e => .error e
        | .ok (r1, m) =>
          match tagP (s2l "`: ") r1 with
          | .error e => .error e
          | .ok r2 => .ok (r2, m)
    match b1 with
    | .ok (ld, ln) => .ok ([], (ln, ld))
    | .error _ =>
      match escapedP (noneOfB (s2l "\\:")) (oneOfB (s2l " `:<>")) i1 with
      | .error e => .error e
      | .ok (r1, m) =>
        match tagP (s2l ": ") r1 with
        | .error e => .error e
        | .ok r2 => .ok (r2, m) >>= fun (ld, ln) => .ok ([], (ln, ld))

/-- The continuation-line separator of `rst_explicit_markup_block`
(restructured_text.rs:195–202): a line ending, the first line's leading
whitespace, then three more spaces (the width of `".. "`). -/
def indentSep (wsp1 : List Char) (i : List Char) : Except PErr (List Char × Unit) :=
  match lineEndingP i with
  | .error e => .error e
  | .ok i1 =>
    match tagP wsp1 i1 with
    | .error e => .error e
    | .ok i2 =>
      match tagP (s2l "   ") i2 with
      | .error e => .error e
      | .ok i3 => .ok (i3, ())

/-- The joining loop of `rst_explicit_markup_block` (restructured_text.rs:
219–228): fragments concatenated with a single space before every fragment
but the first. -/
def join_block (v : List (List Char)) : List Char :=
  (v.foldl (fun acc subs =>
    ((acc.1 ++ (if acc.2 then [] else [' '])) ++ subs, false))
    (([] : List Char), true)).1

/-- `rst_explicit_markup_block` (restructured_text.rs:194–231): optional
leading space, `".. "`, then indentation-continued lines; a single captured
line is returned as a view, several are joined into an owned string. -/
def rst_explicit_markup_block (i : List Char) : Except PErr (List Char × Cow) :=
  let (i1, wsp1) := space0P i
  match tagP (s2l ".. ") i1 with
  | .error e => .error e
  | .ok i2 =>
    match sepList1P (indentSep wsp1) notLineEndingP i2 with
    | .error e => .error e
    | .ok (j, v) =>
      if v.length = 1 then .ok (j, .borrowed v.headI)
      else .ok (j, .owned (join_block v))

/-- `rst_link_ref` (restructured_text.rs:60–98): markup block, then the
reference parsed inside it; on an owned (joined) block every error is
re-reported at the whole input as `EscapedTransform` and the outputs are
forced to `Owned`. -/
def rst_link_ref (i : List Char) : Except PErr (List Char × (Cow × Cow × Cow)) :=
  match rst_explicit_markup_block i with
  | .error e => .error e
  | .ok (i1, c) =>
    match c with
    | .borrowed s =>
      match rst_parse_link_ref s with
      | .error e => .error e
      | .ok (_, (ln0, ld0)) =>
        match rst_escaped_link_name_transform ln0 with
        | .error e => .error e
        | .ok (_, ln) =>
          match rst_escaped_link_destination_transform ld0 with
          | .error e => .error e
          | .ok (_, ld) => .ok (i1, (ln, ld, Cow.borrowed []))
    | .owned s =>
      match rst_parse_link_ref s with
      | .error _ => .error (i, .EscapedTransform)
      | .ok (_, (ln0, ld0)) =>
        match rst_escaped_link_name_transform ln0 with
        | .error _ => .error (i, .EscapedTransform)
        | .ok (_, ln) =>
          match rst_escaped_link_destination_transform ld0 with
          | .error _ => .error (i, .EscapedTransform)
          | .ok (_, ld) =>
            .ok (i1, (Cow.owned ln.val, Cow.owned ld.val, Cow.borrowed []))

/-- Content projection for sanity checks mirroring the source's unit tests,
which compare `Cow`s by content. -/
def triVal (x : List Char × (Cow × Cow × Cow)) :
    List Char × (List Char × List Char × List Char) :=
  (x.1, (x.2.1.val, x.2.2.1.val, x.2.2.2.val))

example : (rst_link (s2l "`Python home page <http://www.python.org>`_abc")).map triVal =
    .ok (s2l "abc", (s2l "Python home page", s2l "http://www.python.org", [])) := by decide
example : (rst_link (s2l "`Python home page <http://www.python.org>`__abc")).map triVal =
    .ok (s2l "abc", (s2l "Python home page", s2l "http://www.python.org", [])) := by decide
example : (rst_link (s2l "`Python\\ \\<home\\> page <http://www.python.org>`_")).map triVal =
    .ok ([], (s2l "Python<home> page", s2l "http://www.python.org", [])) := by decide
example : (rst_link (s2l "`my news at \\<http\\://python.org\\> <http:// news.\\ \\<python\\>.org>`_")).map triVal =
    .ok ([], (s2l "my news at <http://python.org>", s2l "http://news. <python>.org", [])) := by decide
example : (rst_link_ref (s2l ".. _`Python: home page`: http://www.python.org\nabc")).map triVal =
    .ok (s2l "\nabc", (s2l "Python: home page", s2l "http://www.python.org", [])) := by decide
example : (rst_link_ref (s2l "  .. _`Python: home page`: http://www.py\n     thon.org    \nabc")).map triVal =
    .ok (s2l "\nabc", (s2l "Python: home page", s2l "http://www.python.org", [])) := by decide
example : (rst_link_ref (s2l ".. _Python\\: \\`home page\\`: http://www.python\\ .org")).map triVal =
    .ok ([], (s2l "Python: `home page`", s2l "http://www.python .org", [])) := by decide
example : (rst_link_ref (s2l ".. _my news: http://news.\\<python\\>.org")).map triVal =
    .ok ([], (s2l "my news", s2l "http://news.<python>.org", [])) := by decide
example : rst_parse_link_ref (s2l "_Python home page: http://www.python.org") =
    .ok ([], (s2l "Python home page", s2l "http://www.python.org")) := by decide
example : rst_explicit_markup_block (s2l ".. 11111") = .ok ([], .borrowed (s2l "11111")) := by decide
example : rst_explicit_markup_block (s2l "   .. 11111\nout") = .ok (s2l "\nout", .borrowed (s2l "11111")) := by decide
example : rst_explicit_markup_block (s2l "   .. 11111\n      222222\n      333333\nout") =
    .ok (s2l "\nout", .owned (s2l "11111 222222 333333")) := by decide
example : rst_explicit_markup_block (s2l "   .. first\n      second\n       1indent\nout") =
    .ok (s2l "\nout", .owned (s2l "first second  1indent")) := by decide
example : isErr (rst_explicit_markup_block (s2l "   ..first")) = true := by decide
example : rst_escaped_link_name_transform (s2l "\\ \\ \\ ") = .ok ([], .owned []) := by decide
example : rst_escaped_link_name_transform (s2l "abc`:<>abc") =
    .ok ([], .borrowed (s2l "abc`:<>abc")) := by decide
example : rst_escaped_link_name_transform (s2l "\\:\\`\\<\\>\\\\") =
    .ok ([], .owned (s2l ":`<>\\")) := by decide
example : rst_escaped_link_destination_transform (s2l "  ") = .ok ([], .owned []) := by decide
example : rst_escaped_link_destination_transform (s2l " x x") = .ok ([], .owned (s2l "xx")) := by decide
example : rst_escaped_link_destination_transform (s2l "\\ \\ \\ ") = .ok ([], .owned (s2l "   ")) := by decide
example : rst_escaped_link_destination_transform (s2l "abc`:<>abc") =
    .ok ([], .borrowed (s2l "abc`:<>abc")) := by decide
example : (remove_whitespace (s2l " abc ")).map (fun p => (p.1, p.2.val)) =
    .ok ([], s2l "abc") := by decide
example : remove_whitespace (s2l " x x") = .ok ([], .owned (s2l "xx")) := by decide
example : remove_whitespace (s2l "  \t \r \n") = .ok ([], .borrowed []) := by decide
example : remove_whitespace (s2l "\\ \\ \\ ") = .ok ([], .borrowed (s2l "\\ \\ \\ ")) := by decide
example : (remove_whitespace (s2l "http://www.py\n     thon.org")).map (fun p => (p.1, p.2.val)) =
    .ok ([], s2l "http://www.python.org") := by decide

/-! ## Helper lemmas -/

theorem tagP_eq_ok {t i r : List Char} : tagP t i = .ok r ↔ i = t ++ r := by
  constructor
  · intro h
    unfold tagP at h
    split at h
    · next hp =>
      obtain ⟨u, hu⟩ := List.isPrefixOf_iff_prefix.mp hp
      subst hu
      rw [List.drop_left] at h
      cases h
      rfl
    · cases h
  · intro h
    subst h
    unfold tagP
    rw [if_pos (List.isPrefixOf_iff_prefix.mpr ⟨r, rfl⟩), List.drop_left]

theorem escapedAux_nil (nm es : Char → Bool) (orig : List Char) :
    escapedAux nm es orig [] = .ok ([], []) := rfl

theorem escapedAux_cons (nm es : Char → Bool) (orig : List Char) (c : Char) (cs : List Char) :
    escapedAux nm es orig (c :: cs) =
      if nm c then
        (escapedAux nm es orig cs).map (fun p => (p.1, c :: p.2))
      else if c = '\\' then
        match cs with
        | [] => .error (orig, .Escaped)
        | d :: ds =>
          if es d then (escapedAux nm es orig ds).map (fun p => (p.1, c :: d :: p.2))
          else .error (d :: ds, .OneOf)
      else .ok (c :: cs, []) := by
  rw [escapedAux.eq_def]

theorem escapedAux_split_aux {nm es : Char → Bool} {orig : List Char} :
    ∀ (n : Nat) (i r m : List Char), i.length ≤ n →
      escapedAux nm es orig i = .ok (r, m) → i = m ++ r := by
  intro n
  induction n with
  | zero =>
    intro i r m hl h
    rw [Nat.le_zero, List.length_eq_zero] at hl
    subst hl
    rw [escapedAux_nil] at h
    cases h
    rfl
  | succ n ih =>
    intro i r m hl h
    cases i with
    | nil =>
      rw [escapedAux_nil] at h
      cases h
      rfl
    | cons c cs =>
      rw [escapedAux_cons] at h
      by_cases hnm : nm c
      · rw [if_pos hnm] at h
        cases he : escapedAux nm es orig cs with
        | error e => rw [he] at h; cases h
        | ok p =>
          obtain ⟨r0, m0⟩ := p
          have hlen : cs.length ≤ n := by
            simp only [List.length_cons] at hl
            omega
          have hsplit := ih cs r0 m0 hlen he
          rw [he] at h
          simp only [Except.map] at h
          cases h
          rw [List.cons_append, ← hsplit]
      · rw [if_neg hnm] at h
        by_cases hc : c = '\\'
        · subst hc
          rw [if_pos rfl] at h
          cases cs with
          | nil => cases h
          | cons d ds =>
            by_cases hes : es d
            · simp only [if_pos hes] at h
              cases he : escapedAux nm es orig ds with
              | error e => rw [he] at h; cases h
              | ok p =>
                obtain ⟨r0, m0⟩ := p
                have hlen : ds.length ≤ n := by
                  simp only [List.length_cons] at hl
                  omega
                have hsplit := ih ds r0 m0 hlen he
                rw [he] at h
                simp only [Except.map] at h
                cases h
                rw [List.cons_append, List.cons_append, ← hsplit]
            · simp only [if_neg hes] at h
              cases h
        · rw [if_neg hc] at h
          cases h
          rfl

/-- A successful `escaped` call splits its input as matched-span ++ rest. -/
theorem escapedAux_split {nm es : Char → Bool} {orig i r m : List Char}
    (h : escapedAux nm es orig i = .ok (r, m)) : i = m ++ r :=
  escapedAux_split_aux i.length i r m le_rfl h

/-- Scanning a prefix of characters the normal parser accepts just prepends
that prefix to whatever the scan of the tail produces. -/
theorem escapedAux_normal_prefix (nm es : Char → Bool) (orig : List Char) :
    ∀ (m s : List Char), (∀ c ∈ m, nm c = true) →
      escapedAux nm es orig (m ++ s) =
        (escapedAux nm es orig s).map (fun p => (p.1, m ++ p.2)) := by
  intro m
  induction m with
  | nil =>
    intro s _
    rw [List.nil_append]
    cases he : escapedAux nm es orig s with
    | error e => rfl
    | ok p => simp [Except.map]
  | cons c m' ih =>
    intro s hall
    have hc : nm c = true := hall c (by simp)
    rw [List.cons_append, escapedAux_cons, if_pos hc,
      ih s (fun d hd => hall d (by simp [hd]))]
    cases he : escapedAux nm es orig s with
    | error e => rfl
    | ok p => simp [Except.map]

/-- A fully-normal input is consumed whole by `escaped`. -/
theorem escapedAux_all_normal {nm es : Char → Bool} {orig : List Char}
    (m : List Char) (hall : ∀ c ∈ m, nm c = true) :
    escapedAux nm es orig m = .ok ([], m) := by
  have := escapedAux_normal_prefix nm es orig m [] hall
  simpa [escapedAux_nil, Except.map] using this

/-- If `escaped` stops immediately at `c` (empty match), it does so whatever
follows `c`: the first character is neither normal nor the control character. -/
theorem escapedAux_stop_base {nm es : Char → Bool} {orig s : List Char} {c : Char}
    (orig' s' : List Char)
    (h : escapedAux nm es orig (c :: s) = .ok (c :: s, [])) :
    escapedAux nm es orig' (c :: s') = .ok (c :: s', []) := by
  rw [escapedAux_cons] at h ⊢
  by_cases hnm : nm c
  · rw [if_pos hnm] at h
    cases he : escapedAux nm es orig s with
    | error e => rw [he] at h; cases h
    | ok p => rw [he] at h; simp [Except.map] at h
  · rw [if_neg hnm] at h ⊢
    by_cases hc : c = '\\'
    · subst hc
      rw [if_pos rfl] at h
      cases s with
      | nil => cases h
      | cons d ds =>
        by_cases hes : es d
        · simp only [if_pos hes] at h
          cases he : escapedAux nm es orig ds with
          | error e => rw [he] at h; cases h
          | ok p => rw [he] at h; simp [Except.map] at h
        · simp only [if_neg hes] at h
          cases h
    · rw [if_neg hc] at h ⊢

/-- The `escaped` scan is local: if it stopped exactly at the boundary
`m ++ c :: s`, it stops at the same place for any other tail after `c`. -/
theorem escapedAux_stop_aux {nm es : Char → Bool} :
    ∀ (n : Nat) (m : List Char) (c : Char) (s s' orig orig' : List Char), m.length ≤ n →
      escapedAux nm es orig (m ++ c :: s) = .ok (c :: s, m) →
      escapedAux nm es orig' (m ++ c :: s') = .ok (c :: s', m) := by
  intro n
  induction n with
  | zero =>
    intro m c s s' orig orig' hl h
    rw [Nat.le_zero, List.length_eq_zero] at hl
    subst hl
    rw [List.nil_append] at h ⊢
    exact escapedAux_stop_base orig' s' h
  | succ n ih =>
    intro m c s s' orig orig' hl h
    cases m with
    | nil =>
      rw [List.nil_append] at h ⊢
      exact escapedAux_stop_base orig' s' h
    | cons a m' =>
      rw [List.cons_append, escapedAux_cons] at h ⊢
      by_cases hnm : nm a
      · rw [if_pos hnm] at h ⊢
        cases he : escapedAux nm es orig (m' ++ c :: s) with
        | error e => rw [he] at h; cases h
        | ok p =>
          obtain ⟨r0, m0⟩ := p
          rw [he] at h
          simp only [Except.map] at h
          cases h
          have hlen : m'.length ≤ n := by
            simp only [List.length_cons] at hl
            omega
          rw [ih m' c s s' orig orig' hlen he]
          simp [Except.map]
      · rw [if_neg hnm] at h ⊢
        by_cases ha : a = '\\'
        · subst ha
          rw [if_pos rfl] at h ⊢
          cases m' with
          | nil =>
            rw [List.nil_append] at h ⊢
            by_cases hes : es c
            · simp only [if_pos hes] at h
              cases he : escapedAux nm es orig s with
              | error e => rw [he] at h; cases h
              | ok p => rw [he] at h; simp [Except.map] at h
            · simp only [if_neg hes] at h
              cases h
          | cons d ds =>
            simp only [List.cons_append] at h ⊢
            by_cases hes : es d
            · simp only [if_pos hes] at h ⊢
              cases he : escapedAux nm es orig (ds ++ c :: s) with
              | error e => rw [he] at h; cases h
              | ok p =>
                obtain ⟨r0, m0⟩ := p
                rw [he] at h
                simp only [Except.map] at h
                cases h
                have hlen : ds.length ≤ n := by
                  simp only [List.length_cons] at hl
                  omega
                rw [ih ds c s s' orig orig' hlen he]
                simp [Except.map]
            · simp only [if_neg hes] at h
              cases h
        · rw [if_neg ha] at h
          simp at h

/-- The `escaped` scan is local in its tail beyond the stop position. -/
theorem escapedAux_stop {nm es : Char → Bool} {orig m s : List Char} {c : Char}
    (orig' s' : List Char)
    (h : escapedAux nm es orig (m ++ c :: s) = .ok (c :: s, m)) :
    escapedAux nm es orig' (m ++ c :: s') = .ok (c :: s', m) :=
  escapedAux_stop_aux m.length m c s s' orig orig' le_rfl h

theorem escTransAux_nil (emap : Char → Option (List Char)) (orig : List Char) :
    escTransAux emap orig [] = .ok ([], []) := rfl

theorem escTransAux_cons (emap : Char → Option (List Char)) (orig : List Char)
    (c : Char) (cs : List Char) :
    escTransAux emap orig (c :: cs) =
      if c = '\\' then
        match cs with
        | [] => .error (orig, .EscapedTransform)
        | d :: ds =>
          match emap d with
          | some rep => (escTransAux emap orig ds).map (fun p => (p.1, rep ++ p.2))
          | none => .error (d :: ds, .Tag)
      else (escTransAux emap orig cs).map (fun p => (p.1, c :: p.2)) := by
  rw [escTransAux.eq_def]

/-- A backslash-free input passes through `escaped_transform` unchanged. -/
theorem escTransAux_no_bs {emap : Char → Option (List Char)} {orig : List Char} :
    ∀ (m : List Char), (∀ c ∈ m, c ≠ '\\') → escTransAux emap orig m = .ok ([], m) := by
  intro m
  induction m with
  | nil => intro _; rfl
  | cons c cs ih =>
    intro hall
    rw [escTransAux_cons, if_neg (hall c (by simp)),
      ih (fun d hd => hall d (by simp [hd]))]
    rfl

/-- A whitespace-free, backslash-free string passes through
`remove_whitespace` untouched as a single borrowed chunk. -/
theorem remove_whitespace_clean (o : List Char)
    (hall : ∀ c ∈ o, isNomWs c = false ∧ c ≠ '\\') :
    remove_whitespace o = .ok ([], Cow.borrowed o) := by
  cases o with
  | nil => rfl
  | cons c cs =>
    have hnorm : ∀ ch ∈ c :: cs, noneOfB (s2l "\\\r\n \t") ch = true := by
      intro ch hch
      obtain ⟨h1, h2⟩ := hall ch hch
      simp only [isNomWs, Bool.or_eq_false_iff, decide_eq_false_iff_not] at h1
      obtain ⟨⟨⟨h1a, h1b⟩, h1c⟩, h1d⟩ := h1
      simp [noneOfB, s2l, h2, h1a, h1b, h1c, h1d]
    unfold remove_whitespace
    rw [List.length_cons]
    rw [rwLoop]
    rw [if_neg (List.cons_ne_nil c cs)]
    have hdrop : (multispace0P (c :: cs)).1 = c :: cs := by
      simp [multispace0P, List.dropWhile_cons, (hall c (by simp)).1]
    rw [hdrop]
    simp only [escapedP]
    rw [escapedAux_all_normal (c :: cs) hnorm]
    show rwLoop (cs.length + 1) [] (Cow.borrowed (c :: cs)) = _
    rw [rwLoop, if_pos rfl]

/-- The fragment-joining loop of the block joiner equals
`List.intercalate [' ']`. -/
theorem join_block_foldl_aux :
    ∀ (l : List (List Char)) (acc : List Char),
      (l.foldl (fun acc subs => ((acc.1 ++ (if acc.2 then [] else [' '])) ++ subs, false))
        (acc, false)).1 = acc ++ (l.map (fun s => ' ' :: s)).flatten := by
  intro l
  induction l with
  | nil => intro acc; simp
  | cons s ls ih =>
    intro acc
    simp only [List.foldl_cons, if_neg Bool.false_ne_true, ih, List.map_cons,
      List.flatten_cons]
    simp

theorem intercalate_space_cons (a : List Char) (l : List (List Char)) :
    List.intercalate [' '] (a :: l) = a ++ (l.map (fun s => ' ' :: s)).flatten := by
  induction l generalizing a with
  | nil => simp [List.intercalate]
  | cons b bs ih =>
    simp only [List.intercalate, List.intersperse_cons_cons, List.flatten_cons]
    have := ih b
    simp only [List.intercalate] at this
    simp [this]

theorem join_block_eq_intercalate (v : List (List Char)) :
    join_block v = List.intercalate [' '] v := by
  cases v with
  | nil => rfl
  | cons a l =>
    unfold join_block
    simp only [List.foldl_cons]
    rw [join_block_foldl_aux, intercalate_space_cons]
    simp

/-! ## Claim theorems -/

theorem parse_attributes_href_ne_nil {i i1 href title : List Char}
    (h : parse_attributes i = .ok (i1, (href, title))) : href ≠ [] := by
  unfold parse_attributes at h
  cases hal : attribute_list i with
  | error e => simp only [hal] at h; cases h
  | ok p =>
    obtain ⟨i2, attrs⟩ := p
    simp only [hal] at h
    cases hco : collect_attrs attrs [] [] with
    | error e => simp only [hco] at h; cases h
    | ok q =>
      obtain ⟨hf, tl⟩ := q
      simp only [hco] at h
      cases hac : anycharP hf with
      | error e => simp only [hac] at h; cases h
      | ok w =>
        simp only [hac] at h
        cases h
        intro hnil
        subst hnil
        cases hac

theorem tag_a_opening_dest_ne_nil {i i1 dest title : List Char}
    (h : tag_a_opening i = .ok (i1, (dest, title))) : dest ≠ [] := by
  unfold tag_a_opening at h
  cases h1 : tagP (s2l "<a ") i with
  | error e => simp only [h1] at h; cases h
  | ok ia =>
    simp only [h1] at h
    cases h2 : isNotP (s2l ">") ia with
    | error e => simp only [h2] at h; cases h
    | ok p =>
      obtain ⟨ib, inner⟩ := p
      simp only [h2] at h
      cases h3 : parse_attributes inner with
      | error e => simp only [h3] at h; cases h
      | ok q =>
        obtain ⟨ic, hf, tl⟩ := q
        simp only [h3] at h
        cases h4 : tagP (s2l ">") ib with
        | error e => simp only [h4] at h; cases h
        | ok idd =>
          simp only [h4] at h
          cases h
          exact parse_attributes_href_ne_nil h3

/-- C1 counterexample: `rst_link_ref` succeeds on `".. _a: "` and returns an
empty destination, refuting the claim that every successful triple has a
non-empty destination. -/
theorem c1_counterexample :
    rst_link_ref (s2l ".. _a: ") =
      .ok ([], (.borrowed (s2l "a"), .borrowed [], .borrowed [])) := by decide

/-- C1 (amended): for `html_link`, the destination of a successfully parsed
link is never empty (`parse_attributes` ends with `anychar(href)?`); the two
RST parsers do not share this guarantee. -/
theorem c1_html_link_destination_nonempty (i rest name dest title : List Char)
    (h : html_link i = .ok (rest, (name, dest, title))) : dest ≠ [] := by
  unfold html_link at h
  cases hA : tag_a_opening i with
  | error e => simp only [hA] at h; cases h
  | ok p =>
    obtain ⟨i1, d, t⟩ := p
    simp only [hA] at h
    cases hU : takeUntilP (s2l "</a>") i1 with
    | error e => simp only [hU] at h; cases h
    | ok q =>
      obtain ⟨i2, nm⟩ := q
      simp only [hU] at h
      cases hT : tagP (s2l "</a>") i2 with
      | error e => simp only [hT] at h; cases h
      | ok i3 =>
        simp only [hT] at h
        cases h
        exact tag_a_opening_dest_ne_nil hA

theorem c1_witness : s2l "https://x.test/" ≠ [] :=
  c1_html_link_destination_nonempty
    (s2l "<a href=\"https://x.test/\" title=\"T\">N</a>rest")
    (s2l "rest") (s2l "N") (s2l "https://x.test/") (s2l "T") (by decide)

/-- C3: the name transform deletes an escaped space (`"a\ b"` to `"ab"`) but
keeps unescaped whitespace (`"a b"` unchanged, hence borrowed), while the
destination transform restores an escaped space (`"a\ b"` to `"a b"`) and
deletes unescaped whitespace (`"a b"` and `"a\nb"` both to `"ab"`). -/
theorem c3_escaped_space_asymmetry :
    rst_escaped_link_name_transform (s2l "a\\ b") = .ok ([], .owned (s2l "ab")) ∧
    rst_escaped_link_name_transform (s2l "a b") = .ok ([], .borrowed (s2l "a b")) ∧
    rst_escaped_link_destination_transform (s2l "a\\ b") = .ok ([], .owned (s2l "a b")) ∧
    rst_escaped_link_destination_transform (s2l "a b") = .ok ([], .owned (s2l "ab")) ∧
    rst_escaped_link_destination_transform (s2l "a\nb") = .ok ([], .owned (s2l "ab")) :=
  ⟨by decide, by decide, by decide, by decide, by decide⟩

/-- C4 counterexample: the destination transform maps `"\ "` to `" "`, and
re-applying it to `" "` yields `""`, so the transform is not idempotent. -/
theorem c4_counterexample :
    rst_escaped_link_destination_transform (s2l "\\ ") = .ok ([], .owned (s2l " ")) ∧
    rst_escaped_link_destination_transform (s2l " ") = .ok ([], .owned []) :=
  ⟨by decide, by decide⟩

/-- C4 (amended): the destination transform is idempotent on every input
whose output contains no whitespace and no backslash; re-application then
returns the output unchanged (as a borrowed view). In general a space
produced by `\ ` is deleted by a second pass and a backslash produced by
`\\` makes a second pass fail. -/
theorem c4_destination_transform_idempotent_on_clean (i r : List Char) (o : Cow)
    (h : rst_escaped_link_destination_transform i = .ok (r, o))
    (hclean : ∀ c ∈ o.val, isNomWs c = false ∧ c ≠ '\\') :
    rst_escaped_link_destination_transform o.val = .ok ([], Cow.borrowed o.val) := by
  clear h
  unfold rst_escaped_link_destination_transform
  rw [remove_whitespace_clean o.val hclean]
  simp only [Cow.val_borrowed]
  rw [escTransAux_no_bs o.val (fun c hc => (hclean c hc).2)]
  simp

theorem c4_witness :
    rst_escaped_link_destination_transform (Cow.borrowed (s2l "ab")).val =
      .ok ([], Cow.borrowed (Cow.borrowed (s2l "ab")).val) :=
  c4_destination_transform_idempotent_on_clean (s2l "ab") [] (Cow.borrowed (s2l "ab"))
    (by decide) (by decide)

/-- C9: for both transforms a successful result is the `Borrowed` variant
exactly when its content equals the input, and `Owned` exactly when it
differs. -/
theorem c9_cow_borrowed_iff_unchanged (i : List Char) :
    (∀ r c, rst_escaped_link_name_transform i = .ok (r, c) →
      (c.isBorrowed = true ↔ c.val = i)) ∧
    (∀ r c, rst_escaped_link_destination_transform i = .ok (r, c) →
      (c.isBorrowed = true ↔ c.val = i)) := by
  constructor
  · intro r c h
    unfold rst_escaped_link_name_transform at h
    cases het : escTransAux nameEmap i i with
    | error e => simp only [het] at h; cases h
    | ok p =>
      obtain ⟨r0, s⟩ := p
      simp only [het] at h
      by_cases hs : s = i
      · rw [if_pos hs] at h
        cases h
        simp [Cow.isBorrowed, Cow.val]
      · rw [if_neg hs] at h
        cases h
        simp [Cow.isBorrowed, Cow.val, hs]
  · intro r c h
    unfold rst_escaped_link_destination_transform at h
    cases hrw : remove_whitespace i with
    | error e => simp only [hrw] at h; cases h
    | ok p =>
      obtain ⟨j, cw⟩ := p
      simp only [hrw] at h
      cases het : escTransAux destEmap cw.val cw.val with
      | error e => simp only [het] at h; cases h
      | ok q =>
        obtain ⟨r0, s⟩ := q
        simp only [het] at h
        by_cases hs : s = i
        · rw [if_pos hs] at h
          cases h
          simp [Cow.isBorrowed, Cow.val]
        · rw [if_neg hs] at h
          cases h
          simp [Cow.isBorrowed, Cow.val, hs]

theorem c9_witness :
    ((Cow.owned (s2l "ab")).isBorrowed = true ↔ (Cow.owned (s2l "ab")).val = s2l "a\\ b") ∧
    ((Cow.borrowed (s2l "ab")).isBorrowed = true ↔ (Cow.borrowed (s2l "ab")).val = s2l "ab") :=
  ⟨(c9_cow_borrowed_iff_unchanged (s2l "a\\ b")).1 [] (Cow.owned (s2l "ab")) (by decide),
   (c9_cow_borrowed_iff_unchanged (s2l "ab")).2 [] (Cow.borrowed (s2l "ab")) (by decide)⟩

/-- C10: `rst_link` accepts an empty link name: on `` `<dest>`_x `` it
succeeds with the empty string as name, and a name of only whitespace is
trimmed to empty. -/
theorem c10_empty_link_name :
    rst_link (s2l "`<dest>`_x") =
      .ok (s2l "x", (.borrowed [], .borrowed (s2l "dest"), .borrowed [])) ∧
    rst_link (s2l "`  <dest>`_x") =
      .ok (s2l "x", (.borrowed [], .borrowed (s2l "dest"), .borrowed [])) :=
  ⟨by decide, by decide⟩

/-- C5: the block joiner returns a view of the single captured line when one
line is captured, joins several captured lines with exactly one space
between consecutive fragments, and on `".. a\n   b\n  c"` captures exactly
the first two lines (joined `"a b"`) leaving `"\n  c"` unconsumed. -/
theorem c5_block_joiner (i i1 w i2 j : List Char) (v : List (List Char))
    (h0 : space0P i = (i1, w))
    (h1 : tagP (s2l ".. ") i1 = .ok i2)
    (h2 : sepList1P (indentSep w) notLineEndingP i2 = .ok (j, v)) :
    (v.length = 1 → rst_explicit_markup_block i = .ok (j, .borrowed v.headI)) ∧
    (v.length ≠ 1 → rst_explicit_markup_block i =
      .ok (j, .owned (List.intercalate [' '] v))) ∧
    rst_explicit_markup_block (s2l ".. a\n   b\n  c") =
      .ok (s2l "\n  c", .owned (s2l "a b")) := by
  have hblock : rst_explicit_markup_block i =
      if v.length = 1 then .ok (j, .borrowed v.headI)
      else .ok (j, .owned (join_block v)) := by
    unfold rst_explicit_markup_block
    simp only [h0, h1, h2]
  refine ⟨?_, ?_, by decide⟩
  · intro hlen
    rw [hblock, if_pos hlen]
  · intro hlen
    rw [hblock, if_neg hlen, join_block_eq_intercalate]

theorem c5_witness :
    rst_explicit_markup_block (s2l ".. one\nrest") = .ok (s2l "\nrest", .borrowed (s2l "one")) :=
  (c5_block_joiner (s2l ".. one\nrest") (s2l ".. one\nrest") [] (s2l "one\nrest")
    (s2l "\nrest") [s2l "one"] (by decide) (by decide) (by decide)).1 (by decide)

theorem verifyAlnumAlpha_numeric_first {c : Char} {rest : List Char}
    (hc : c.isAlphanum = true) (hca : c.isAlpha = false) :
    verifyAlnumAlpha (c :: rest) = .error (c :: rest, .Verify) := by
  simp [verifyAlnumAlpha, alphanumeric1P, List.takeWhile_cons, hc, hca, firstAlphaB]

theorem attributeP_numeric_first {c : Char} {rest : List Char}
    (hc : c.isAlphanum = true) (hca : c.isAlpha = false) :
    attributeP (c :: rest) = .error (c :: rest, .Verify) := by
  unfold attributeP
  simp only [verifyAlnumAlpha_numeric_first hc hca]

/-- C7 counterexample: a numeric-first token in a later position does not
make the extractor fail; `parse_attributes` succeeds and leaves the token
unconsumed. -/
theorem c7_counterexample :
    parse_attributes (s2l "href=\"x\" 1name") = .ok (s2l " 1name", (s2l "x", [])) := by
  decide

/-- C7 (amended): a token whose first character is alphanumeric but not
alphabetic causes a `Verify` parse error at its position only when it is the
first token of the attribute list; in a later position it merely terminates
the list, and the enclosing tag parser silently discards it (shown at
`html_link` level). -/
theorem c7_numeric_first_token (i : List Char) (c : Char) (rest : List Char)
    (ht : trimL i = c :: rest) (hc : c.isAlphanum = true) (hca : c.isAlpha = false) :
    parse_attributes i = .error (c :: rest, .Verify) ∧
    html_link (s2l "<a href=\"x\" 1name>n</a>") = .ok ([], (s2l "n", s2l "x", [])) := by
  refine ⟨?_, by decide⟩
  unfold parse_attributes attribute_list sepList1P
  rw [ht]
  simp only [attributeP_numeric_first hc hca]

theorem c7_witness :
    parse_attributes (s2l "1name href=\"x\"") =
        .error (s2l "1name href=\"x\"", .Verify) ∧
      html_link (s2l "<a href=\"x\" 1name>n</a>") = .ok ([], (s2l "n", s2l "x", [])) :=
  c7_numeric_first_token (s2l "1name href=\"x\"") '1' (s2l "name href=\"x\"")
    (by decide) (by decide) (by decide)

/-- The accumulator slot (`href` or `title`) that key `k` writes to in the
`parse_attributes` loop. -/
def keySlot (k h t : List Char) : List Char := if k = s2l "href" then h else t

theorem collect_attrs_error_eof :
    ∀ (l : List (List Char × List Char)) (h t : List Char) (e : PErr),
      collect_attrs l h t = .error e → e.2 = ErrKind.Eof ∧ e.1 ≠ [] := by
  intro l
  induction l with
  | nil => intro h t e he; cases he
  | cons p l ih =>
    intro h t e he
    obtain ⟨n, v⟩ := p
    simp only [collect_attrs] at he
    by_cases h1 : n = s2l "href"
    · rw [if_pos h1] at he
      by_cases h2 : h = []
      · rw [if_pos h2] at he
        exact ih _ _ _ he
      · rw [if_neg h2] at he
        cases he
        exact ⟨rfl, h2⟩
    · rw [if_neg h1] at he
      by_cases h3 : n = s2l "title"
      · rw [if_pos h3] at he
        by_cases h4 : t = []
        · rw [if_pos h4] at he
          exact ih _ _ _ he
        · rw [if_neg h4] at he
          cases he
          exact ⟨rfl, h4⟩
      · rw [if_neg h3] at he
        exact ih _ _ _ he

theorem collect_attrs_dup_err :
    ∀ (l : List (List Char × List Char)) (h t k v : List Char),
      (k = s2l "href" ∨ k = s2l "title") → keySlot k h t ≠ [] → (k, v) ∈ l →
      isErr (collect_attrs l h t) = true := by
  intro l
  induction l with
  | nil => intro h t k v _ _ hm; cases hm
  | cons p l ih =>
    intro h t k v hk hslot hm
    obtain ⟨n, w⟩ := p
    simp only [collect_attrs]
    by_cases h1 : n = s2l "href"
    · rw [if_pos h1]
      by_cases h2 : h = []
      · rw [if_pos h2]
        rcases hk with hk | hk
        · exfalso
          apply hslot
          rw [hk, keySlot, if_pos rfl, h2]
        · subst hk
          have htne : s2l "title" ≠ s2l "href" := by decide
          have hslot' : t ≠ [] := by simpa [keySlot, htne] using hslot
          have hm' : (s2l "title", v) ∈ l := by
            rcases List.mem_cons.mp hm with heq | hmem
            · exact absurd (h1 ▸ congrArg Prod.fst heq) htne
            · exact hmem
          exact ih w t _ v (Or.inr rfl) (by simpa [keySlot, htne]) hm'
      · rw [if_neg h2]
        rfl
    · rw [if_neg h1]
      by_cases h3 : n = s2l "title"
      · rw [if_pos h3]
        by_cases h4 : t = []
        · rw [if_pos h4]
          rcases hk with hk | hk
          · subst hk
            have hslot' : h ≠ [] := by simpa [keySlot] using hslot
            have hm' : (s2l "href", v) ∈ l := by
              rcases List.mem_cons.mp hm with heq | hmem
              · have hf : s2l "href" = n := congrArg Prod.fst heq
                rw [h3] at hf
                exact absurd hf (by decide)
              · exact hmem
            exact ih h w _ v (Or.inl rfl) (by simpa [keySlot]) hm'
          · exfalso
            apply hslot
            rw [hk, keySlot,
              if_neg (by decide : ¬(s2l "title" = s2l "href")), h4]
        · rw [if_neg h4]
          rfl
      · rw [if_neg h3]
        have hm' : (k, v) ∈ l := by
          rcases List.mem_cons.mp hm with heq | hmem
          · exfalso
            rcases hk with hk | hk
            · exact h1 ((congrArg Prod.fst heq).symm.trans hk)
            · exact h3 ((congrArg Prod.fst heq).symm.trans hk)
          · exact hmem
        exact ih h t k v hk hslot hm'

theorem collect_attrs_skip :
    ∀ (l1 rest : List (List Char × List Char)) (h t k : List Char),
      (k = s2l "href" ∨ k = s2l "title") →
      (∀ p ∈ l1, p.1 ≠ k) →
      isErr (collect_attrs (l1 ++ rest) h t) = true ∨
      ∃ h' t', collect_attrs (l1 ++ rest) h t = collect_attrs rest h' t' ∧
        keySlot k h' t' = keySlot k h t := by
  intro l1
  induction l1 with
  | nil => intro rest h t k _ _; right; exact ⟨h, t, rfl, rfl⟩
  | cons p l1 ih =>
    intro rest h t k hk hno
    obtain ⟨n, w⟩ := p
    have hnk : n ≠ k := hno (n, w) (by simp)
    rw [List.cons_append]
    simp only [collect_attrs]
    by_cases h1 : n = s2l "href"
    · rw [if_pos h1]
      by_cases h2 : h = []
      · rw [if_pos h2]
        rcases ih rest w t k hk (fun p hp => hno p (by simp [hp])) with
          herr | ⟨h', t', heq, hsl⟩
        · left; exact herr
        · right
          refine ⟨h', t', heq, ?_⟩
          rw [hsl]
          have hkh : k ≠ s2l "href" := fun hh => hnk (h1.trans hh.symm)
          simp [keySlot, hkh]
      · rw [if_neg h2]
        left; rfl
    · rw [if_neg h1]
      by_cases h3 : n = s2l "title"
      · rw [if_pos h3]
        by_cases h4 : t = []
        · rw [if_pos h4]
          rcases ih rest h w k hk (fun p hp => hno p (by simp [hp])) with
            herr | ⟨h', t', heq, hsl⟩
          · left; exact herr
          · right
            refine ⟨h', t', heq, ?_⟩
            rw [hsl]
            have hkt : k ≠ s2l "title" := fun hh => hnk (h3.trans hh.symm)
            have hkh : k = s2l "href" := by
              rcases hk with hk | hk
              · exact hk
              · exact absurd hk hkt
            simp [keySlot, hkh]
        · rw [if_neg h4]
          left; rfl
      · rw [if_neg h3]
        exact ih rest h t k hk (fun p hp => hno p (by simp [hp]))

/-- C2 counterexample: a second `href` written with an empty value is lexed
as a boolean attribute (the value parser `is_not("\"")` needs at least one
character), so no duplicate-field error is raised and the extractor
succeeds. -/
theorem c2_counterexample :
    parse_attributes (s2l " href=\"a\" href=\"\" ") =
      .ok (s2l "=\"\"", (s2l "a", [])) := by decide

/-- C2 (amended): for every attribute list in which the key `href` (or
`title`) occurs twice as a recognized key/value pair — which forces both
values non-empty — the extraction loop fails with the duplicate-field error
(`ErrorKind::Eof` reported at an already-stored, non-empty value); shown
together with the duplicate rejection at string level. -/
theorem c2_duplicate_key_rejected (k v1 v2 : List Char)
    (l1 l2a l2b : List (List Char × List Char))
    (hk : k = s2l "href" ∨ k = s2l "title")
    (hno : ∀ p ∈ l1, p.1 ≠ k) (hv1 : v1 ≠ []) :
    (∃ pos, pos ≠ [] ∧
      collect_attrs (l1 ++ (k, v1) :: (l2a ++ (k, v2) :: l2b)) [] [] =
        .error (pos, ErrKind.Eof)) ∧
    parse_attributes (s2l " href=\"a\" href=\"b\" ") =
      .error (s2l "a", ErrKind.Eof) := by
  refine ⟨?_, by decide⟩
  have hmain : isErr (collect_attrs (l1 ++ (k, v1) :: (l2a ++ (k, v2) :: l2b)) [] []) = true := by
    rcases collect_attrs_skip l1 ((k, v1) :: (l2a ++ (k, v2) :: l2b)) [] [] k hk hno with
      herr | ⟨h', t', heq, hsl⟩
    · exact herr
    · rw [heq]
      simp only [collect_attrs]
      rcases hk with hk | hk
      · subst hk
        rw [if_pos rfl]
        have hh : h' = [] := by simpa [keySlot] using hsl
        rw [if_pos hh]
        exact collect_attrs_dup_err _ v1 t' _ v2 (Or.inl rfl)
          (by simp [keySlot, hv1]) (by simp)
      · subst hk
        have htne : ¬(s2l "title" = s2l "href") := by decide
        rw [if_neg htne, if_pos rfl]
        have ht' : t' = [] := by simpa [keySlot, htne] using hsl
        rw [if_pos ht']
        exact collect_attrs_dup_err _ h' v1 _ v2 (Or.inr rfl)
          (by simp [keySlot, htne, hv1]) (by simp)
  cases hc : collect_attrs (l1 ++ (k, v1) :: (l2a ++ (k, v2) :: l2b)) [] [] with
  | ok p =>
    rw [hc] at hmain
    simp [isErr] at hmain
  | error e =>
    obtain ⟨e1, e2⟩ := e
    obtain ⟨he2, he1⟩ := collect_attrs_error_eof _ _ _ (e1, e2) hc
    have he2' : e2 = ErrKind.Eof := he2
    have he1' : e1 ≠ [] := he1
    subst he2'
    exact ⟨e1, he1', rfl⟩

theorem c2_witness :
    (∃ pos, pos ≠ [] ∧
      collect_attrs [(s2l "href", s2l "a"), (s2l "href", s2l "b")] [] [] =
        .error (pos, ErrKind.Eof)) ∧
    parse_attributes (s2l " href=\"a\" href=\"b\" ") =
      .error (s2l "a", ErrKind.Eof) :=
  c2_duplicate_key_rejected (s2l "href") (s2l "a") (s2l "b") [] [] []
    (Or.inl rfl) (by simp) (by decide)

theorem rst_link_err_of_parse_err {i : List Char}
    (h : isErr (rst_parse_link i) = true) : isErr (rst_link i) = true := by
  unfold rst_link
  cases hp : rst_parse_link i with
  | error e => rfl
  | ok p =>
    rw [hp] at h
    simp [isErr] at h

/-- C6 counterexample: on `` `a\\b <d>`_ `` (a name containing an escaped
backslash) `rst_link` fails — the inner name parser's escapable set rejects
`\\` — instead of succeeding with a literal backslash in the name. -/
theorem c6_counterexample :
    rst_link (s2l "`a\\\\b <d>`_") = .error (s2l "\\b <d>", .OneOf) := by decide

/-- C6 (amended): the escape set recognized while re-parsing the captured
span's name field excludes the backslash: whenever the name part consists of
ordinary characters followed by the two-character sequence `\\`, `rst_link`
fails (with an error at the second backslash), for any continuation of the
input. -/
theorem c6_name_backslash_escape_rejected (n1 t : List Char)
    (hn1 : ∀ c ∈ n1, c ≠ '\\' ∧ c ≠ '`' ∧ c ≠ '<') :
    isErr (rst_link ('`' :: (n1 ++ '\\' :: '\\' :: t))) = true := by
  apply rst_link_err_of_parse_err
  have hinner : ∀ m0 : List Char,
      rst_link_inner (n1 ++ '\\' :: '\\' :: m0) = .error ('\\' :: m0, .OneOf) := by
    intro m0
    have hstep : escapedAux (noneOfB (s2l "\\<")) (oneOfB (s2l " `:<>"))
        (n1 ++ '\\' :: '\\' :: m0) ('\\' :: '\\' :: m0) = .error ('\\' :: m0, .OneOf) := by
      have h1 : noneOfB (s2l "\\<") '\\' = false := by decide
      have h2 : oneOfB (s2l " `:<>") '\\' = false := by decide
      rw [escapedAux_cons]
      simp [h1, h2]
    have hpre := escapedAux_normal_prefix (noneOfB (s2l "\\<"))
      (oneOfB (s2l " `:<>")) (n1 ++ '\\' :: '\\' :: m0)
      n1 ('\\' :: '\\' :: m0)
      (fun c hc => by simp [noneOfB, s2l, (hn1 c hc).1, (hn1 c hc).2.2])
    unfold rst_link_inner
    simp only [escapedP]
    rw [hpre, hstep]
    simp [Except.map]
  unfold rst_parse_link
  have htag : tagP (s2l "`") ('`' :: (n1 ++ '\\' :: '\\' :: t)) =
      .ok (n1 ++ '\\' :: '\\' :: t) := tagP_eq_ok.mpr rfl
  simp only [htag, escapedP]
  have hstepO : escapedAux (noneOfB (s2l "\\`")) (oneOfB (s2l " `:<>\\"))
      (n1 ++ '\\' :: '\\' :: t) ('\\' :: '\\' :: t) =
      (escapedAux (noneOfB (s2l "\\`")) (oneOfB (s2l " `:<>\\"))
        (n1 ++ '\\' :: '\\' :: t) t).map (fun p => (p.1, '\\' :: '\\' :: p.2)) := by
    have h1 : noneOfB (s2l "\\`") '\\' = false := by decide
    have h2 : oneOfB (s2l " `:<>\\") '\\' = true := by decide
    rw [escapedAux_cons]
    simp [h1, h2]
  have hpreO := escapedAux_normal_prefix (noneOfB (s2l "\\`"))
    (oneOfB (s2l " `:<>\\")) (n1 ++ '\\' :: '\\' :: t)
    n1 ('\\' :: '\\' :: t)
    (fun c hc => by simp [noneOfB, s2l, (hn1 c hc).1, (hn1 c hc).2.1])
  rw [hpreO, hstepO]
  cases he : escapedAux (noneOfB (s2l "\\`")) (oneOfB (s2l " `:<>\\"))
      (n1 ++ '\\' :: '\\' :: t) t with
  | error e => simp [Except.map, isErr]
  | ok p =>
    obtain ⟨r0, m0⟩ := p
    simp only [Except.map]
    cases htg : tagP (s2l "`_") r0 with
    | error e => simp [htg, isErr]
    | ok i3 =>
      simp only [htg]
      rw [show (n1 ++ '\\' :: '\\' :: m0 : List Char) = n1 ++ '\\' :: '\\' :: m0 from rfl]
      rw [hinner m0]
      simp [isErr]

theorem c6_witness :
    isErr (rst_link ('`' :: (s2l "a" ++ '\\' :: '\\' :: s2l "b <d>`_"))) = true :=
  c6_name_backslash_escape_rejected (s2l "a") (s2l "b <d>`_") (by decide)

theorem rst_parse_link_doubled (A rest : List Char) (pr : List Char × List Char)
    (h : rst_parse_link ('`' :: (A ++ '`' :: '_' :: rest)) = .ok (rest, pr)) :
    rst_parse_link ('`' :: (A ++ '`' :: '_' :: '_' :: rest)) = .ok (rest, pr) := by
  unfold rst_parse_link at h ⊢
  have htag1 : tagP (s2l "`") ('`' :: (A ++ '`' :: '_' :: rest)) =
      .ok (A ++ '`' :: '_' :: rest) := tagP_eq_ok.mpr rfl
  have htag2 : tagP (s2l "`") ('`' :: (A ++ '`' :: '_' :: '_' :: rest)) =
      .ok (A ++ '`' :: '_' :: '_' :: rest) := tagP_eq_ok.mpr rfl
  simp only [htag1, escapedP] at h
  simp only [htag2, escapedP]
  cases hesc : escapedAux (noneOfB (s2l "\\`")) (oneOfB (s2l " `:<>\\"))
      (A ++ '`' :: '_' :: rest) (A ++ '`' :: '_' :: rest) with
  | error e => simp only [hesc] at h; cases h
  | ok p =>
    obtain ⟨i2, j⟩ := p
    simp only [hesc] at h
    cases htg : tagP (s2l "`_") i2 with
    | error e => simp only [htg] at h; cases h
    | ok i3 =>
      simp only [htg] at h
      cases hin : rst_link_inner j with
      | error e => simp only [hin] at h; cases h
      | ok q =>
        obtain ⟨ln, ld⟩ := q
        simp only [hin] at h
        have hsp0 := escapedAux_split hesc
        have hi2 : i2 = '`' :: '_' :: i3 := by
          have := tagP_eq_ok.mp htg
          simpa [s2l] using this
        cases hop : tagP (s2l "_") i3 with
        | ok xs =>
          simp only [hop] at h
          simp only [Except.ok.injEq, Prod.mk.injEq] at h
          obtain ⟨hxs, hpr⟩ := h
          have hxs' : rest = xs := hxs.symm
          subst hxs'
          have hi3 : i3 = '_' :: rest := by
            have := tagP_eq_ok.mp hop
            simpa [s2l] using this
          rw [hi2, hi3] at hsp0
          have hlen := congrArg List.length hsp0
          simp only [List.length_append, List.length_cons] at hlen
          have hAlen : A.length = j.length + 1 := by omega
          have hd := congrArg (List.drop A.length) hsp0
          rw [List.drop_left, hAlen, List.drop_append 1] at hd
          have hone : List.drop 1 ('`' :: '_' :: '_' :: rest) = '_' :: '_' :: rest := rfl
          rw [hone] at hd
          injection hd with hc _
          exact absurd hc (by decide)
        | error e2 =>
          simp only [hop] at h
          simp only [Except.ok.injEq, Prod.mk.injEq] at h
          obtain ⟨hi3, hpr⟩ := h
          have hi3' : rest = i3 := hi3.symm
          subst hi3'
          rw [hi2] at hsp0
          have hlen := congrArg List.length hsp0
          simp only [List.length_append, List.length_cons] at hlen
          have hAj : A = j := List.append_inj_left hsp0 (by omega)
          subst hAj
          rw [hi2] at hesc
          have hstop := escapedAux_stop (A ++ '`' :: '_' :: '_' :: rest)
            ('_' :: '_' :: rest) hesc
          simp only [hstop]
          have htg2 : tagP (s2l "`_") ('`' :: '_' :: '_' :: rest) =
              .ok ('_' :: rest) := tagP_eq_ok.mpr rfl
          simp only [htg2]
          have hop2 : tagP (s2l "_") ('_' :: rest) = .ok rest := tagP_eq_ok.mpr rfl
          simp only [hop2, hin, hpr]

/-- C8: whenever the single-suffix form `` `name <dest>`_rest `` parses with
remaining input exactly `rest` and triple `t`, the doubled-suffix form
`` `name <dest>`__rest `` parses with the same remaining input and the
identical triple. -/
theorem c8_doubled_suffix_equivalent (name dest rest : List Char) (t : Cow × Cow × Cow)
    (h : rst_link ('`' :: (name ++ s2l " <" ++ dest ++ s2l ">" ++ '`' :: '_' :: rest)) =
      .ok (rest, t)) :
    rst_link ('`' :: (name ++ s2l " <" ++ dest ++ s2l ">" ++ '`' :: '_' :: '_' :: rest)) =
      .ok (rest, t) := by
  have hshape : name ++ s2l " <" ++ dest ++ s2l ">" ++ '`' :: '_' :: rest =
      (name ++ s2l " <" ++ dest ++ s2l ">") ++ '`' :: '_' :: rest := rfl
  have hshape2 : name ++ s2l " <" ++ dest ++ s2l ">" ++ '`' :: '_' :: '_' :: rest =
      (name ++ s2l " <" ++ dest ++ s2l ">") ++ '`' :: '_' :: '_' :: rest := rfl
  rw [hshape] at h
  rw [hshape2]
  unfold rst_link at h ⊢
  cases hp : rst_parse_link
      ('`' :: ((name ++ s2l " <" ++ dest ++ s2l ">") ++ '`' :: '_' :: rest)) with
  | error e => simp only [hp] at h; cases h
  | ok p =>
    obtain ⟨i4, ln, ld⟩ := p
    simp only [hp] at h
    cases hn : rst_escaped_link_name_transform ln with
    | error e => simp only [hn] at h; cases h
    | ok pn =>
      obtain ⟨rn, cn⟩ := pn
      simp only [hn] at h
      cases hdt : rst_escaped_link_destination_transform ld with
      | error e => simp only [hdt] at h; cases h
      | ok pd =>
        obtain ⟨rd, cd⟩ := pd
        simp only [hdt] at h
        simp only [Except.ok.injEq, Prod.mk.injEq] at h
        obtain ⟨hi4, ht⟩ := h
        have hi4' : rest = i4 := hi4.symm
        subst hi4'
        have hdbl := rst_parse_link_doubled (name ++ s2l " <" ++ dest ++ s2l ">")
          rest (ln, ld) hp
        simp only [hdbl, hn, hdt, ht]

theorem c8_witness :
    rst_link ('`' :: (s2l "Name" ++ s2l " <" ++ s2l "dest" ++ s2l ">" ++
        '`' :: '_' :: '_' :: s2l "rest")) =
      .ok (s2l "rest",
        (.borrowed (s2l "Name"), .borrowed (s2l "dest"), .borrowed [])) :=
  c8_doubled_suffix_equivalent (s2l "Name") (s2l "dest") (s2l "rest")
    (.borrowed (s2l "Name"), .borrowed (s2l "dest"), .borrowed []) (by decide)
